import Mathlib

/-!
Verification development for BDF.js, a reader for Adobe Glyph Bitmap
Distribution Format fonts.  The file shallowly embeds the two core pieces
of `src/BDF.js` — the line-oriented font text processing in `_populate`
and the text compositing in `writeText` — as executable Lean functions,
and proves properties of them.

Modelling conventions (JavaScript semantics):
- JS numbers that the code produces with unary `+` or `parseInt` are
  modelled as `Option Int`, with `none` playing the role of `NaN`
  (BDF numeric fields are integers; non-integer numerals, which no BDF
  file uses, are mapped to `NaN` as well).
- A `for (k = 0; k < n; k++)` loop over a possibly negative or `NaN`
  bound `n` runs `jsLoopCount n` times.
- A thrown JS `TypeError` (property access on `undefined`/`null`) is
  modelled as the error value `JsErr.typeError`; the two string throws of
  `_populate` are `JsErr.malformedFont` (the spec's `MalformedFont`).
- Assignment to a JS array at an index beyond its length extends the
  array; the holes read back as `undefined`, which bitwise-OR coerces to
  `0`, so they are modelled as `0` entries.  Assignment at a negative
  index creates a non-index property that is invisible to the array
  contents and is modelled as a no-op.
-/

set_option linter.unusedVariables false

namespace BDF

/-- Hexadecimal value of one character, as used by `parseInt(s, 16)`. -/
def hexVal (c : Char) : Option Nat :=
  if 48 ≤ c.toNat ∧ c.toNat ≤ 57 then some (c.toNat - 48)
  else if 97 ≤ c.toNat ∧ c.toNat ≤ 102 then some (c.toNat - 87)
  else if 65 ≤ c.toNat ∧ c.toNat ≤ 70 then some (c.toNat - 55)
  else none

/-- Decimal value of one character. -/
def decVal (c : Char) : Option Nat :=
  if 48 ≤ c.toNat ∧ c.toNat ≤ 57 then some (c.toNat - 48) else none

/-- Folds a digit list into a number, `none` if any character is not a
digit of the base. -/
def digitsToNat (digit : Char → Option Nat) (base : Nat) (cs : List Char) : Option Nat :=
  cs.foldl
    (fun acc c =>
      match acc, digit c with
      | some a, some d => some (a * base + d)
      | _, _ => none)
    (some 0)

/-- JS `parseInt(s, 16)`: skip leading whitespace, optional sign, then the
longest prefix of hex digits; `none` models the `NaN` result when no digit
is found.  (The `0x` prefix form never matters for the at-most-two-character
strings `_populate` passes in: `parseInt("0x", 16)` = `parseInt("0", 16)`.) -/
def jsParseIntHex (s : String) : Option Int :=
  let cs := s.data.dropWhile Char.isWhitespace
  let (sign, cs) : Int × List Char :=
    match cs with
    | '-' :: rest => (-1, rest)
    | '+' :: rest => (1, rest)
    | _ => (1, cs)
  let ds := cs.takeWhile (fun c => (hexVal c).isSome)
  match ds with
  | [] => none
  | _ => (digitsToNat hexVal 16 ds).map (fun n => sign * n)

/-- JS unary plus on a token (`+data[k]`): `undefined` is `NaN`; a string is
trimmed, the empty string is `0`, a signed run of decimal digits is its
value, anything else is `NaN` (`none`).  BDF numeric fields are decimal
integers, so the float and hex numeral forms of `ToNumber` never occur. -/
def jsToNum (t : Option String) : Option Int :=
  match t with
  | none => none
  | some s =>
    let cs := (s.data.dropWhile Char.isWhitespace).reverse.dropWhile Char.isWhitespace |>.reverse
    match cs with
    | [] => some 0
    | '-' :: rest => if rest = [] then none else (digitsToNat decVal 10 rest).map (fun n => -(n : Int))
    | '+' :: rest => if rest = [] then none else (digitsToNat decVal 10 rest).map (fun n => (n : Int))
    | _ => (digitsToNat decVal 10 cs).map (fun n => (n : Int))

/-- Number of iterations of a JS loop `for (k = 0; k < n; k++)` when `n` is
a possibly-`NaN` number: `NaN` and non-positive bounds give zero. -/
def jsLoopCount (n : Option Int) : Nat :=
  match n with
  | none => 0
  | some v => v.toNat

/-- JS `Math.ceil(w / 8)` for an integer `w`. -/
def ceilDiv8 (w : Int) : Int :=
  if 0 ≤ w then ((w.toNat + 7) / 8 : Nat) else -(((-w).toNat / 8 : Nat))

/-- JS `s.substr(start, 2)`. -/
def substr2 (s : String) (start : Nat) : String :=
  String.mk ((s.data.drop start).take 2)

/-- Tokens of a string that does not begin with whitespace, as produced by
JS `split(/\s+/)` (fueled for structural recursion; `fuel = length` always
suffices since every step consumes at least one character). -/
def splitTokensF : Nat → List Char → List String
  | 0, _ => []
  | _ + 1, [] => [""]
  | n + 1, cs =>
    let tok := cs.takeWhile (fun c => !c.isWhitespace)
    let rest := cs.dropWhile (fun c => !c.isWhitespace)
    match rest with
    | [] => [String.mk tok]
    | _ :: _ => String.mk tok :: splitTokensF n (rest.dropWhile Char.isWhitespace)

/-- JS `line.split(/\s+/)`: a leading whitespace run contributes a leading
empty token, a trailing one a trailing empty token. -/
def jsSplitWS (s : String) : List String :=
  match s.data with
  | [] => [""]
  | c :: _ =>
    if c.isWhitespace then
      "" :: splitTokensF s.data.length (s.data.dropWhile Char.isWhitespace)
    else splitTokensF s.data.length s.data

/-- JS `data.split("\n")`. -/
def splitOnNewline : List Char → List Char → List String
  | [], acc => [String.mk acc.reverse]
  | c :: cs, acc =>
    if c = '\n' then String.mk acc.reverse :: splitOnNewline cs []
    else splitOnNewline cs (c :: acc)

/-- All the lines of the raw font text (`data.split("\n")`). -/
def splitLines (s : String) : List String :=
  splitOnNewline s.data []

/-- Assignment `l[i] = v` on a JS array of numbers: negative indices create
invisible non-index properties (no-op here), indices beyond the length
extend the array, the holes reading back as `0` under bitwise operations. -/
def jsSetIdx (l : List Int) (i : Int) (v : Int) : List Int :=
  if i < 0 then l
  else if i.toNat < l.length then l.set i.toNat v
  else l ++ List.replicate (i.toNat - l.length) 0 ++ [v]

/-- Assignment `l[i] = v` on a JS array of rows, same semantics as
`jsSetIdx` with `pad` for the holes. -/
def jsSetList {α : Type} (l : List α) (i : Nat) (pad : α) (v : α) : List α :=
  if i < l.length then l.set i v
  else l ++ List.replicate (i - l.length) pad ++ [v]

/-- Errors a `_populate` call can end in.  `malformedFont` stands for the
two string throws (`"Couldn't understand this font"`,
`"Couldn't correctly parse font"`), the spec's `MalformedFont`.
`typeError` stands for a JS `TypeError` from a property access on
`undefined`/`null`.  `nonTermination` is unreachable: the recursion fuel of
the line loop is always initialized to the number of remaining lines,
which bounds the number of iterations. -/
inductive JsErr where
  | malformedFont
  | typeError
  | nonTermination
deriving DecidableEq

/-- The `SIZE` record of the font metadata (`points`, `resolutionX`,
`resolutionY` from tokens 1-3). -/
structure SizeRaw where
  points : Option Int
  resolutionX : Option Int
  resolutionY : Option Int
deriving DecidableEq

/-- A bounding box as parsed (`FONTBOUNDINGBOX` / `BBX`), fields possibly
`NaN`. -/
structure BBoxRaw where
  width : Option Int
  height : Option Int
  x : Option Int
  y : Option Int
deriving DecidableEq

/-- The `STARTPROPERTIES` record (`this.meta.properties`). -/
structure PropsRaw where
  fontDescent : Option Int
  fontAscent : Option Int
  defaultChar : Option Int
deriving DecidableEq

/-- A fresh `this.meta.properties = {}`. -/
def emptyProps : PropsRaw := ⟨none, none, none⟩

/-- The font metadata object `this.meta`; `none` fields are the JS
properties not (yet) assigned.  `version` conflates "unset" with
"set to `undefined`" (a `STARTFONT` line without a second token), which is
observably the same for every use the code makes of it; likewise `name`. -/
structure MetaRaw where
  version : Option String
  name : Option String
  size : Option SizeRaw
  boundingBox : Option BBoxRaw
  properties : Option PropsRaw
  totalChars : Option Int
deriving DecidableEq

/-- A fresh `this.meta = {}`. -/
def emptyMeta : MetaRaw := ⟨none, none, none, none, none, none⟩

/-- The glyph scratch object built between `STARTCHAR` and `ENDCHAR`.
`charCode` models the `char` property: JS stores
`String.fromCharCode(+data[1])`, modelled by the code point it was built
from. -/
structure CharRaw where
  name : Option String
  bytes : List (Option Int)
  bitmap : List (List Int)
  code : Option Int
  charCode : Option Int
  scalableWidthX : Option Int
  scalableWidthY : Option Int
  deviceWidthX : Option Int
  deviceWidthY : Option Int
  boundingBox : Option BBoxRaw
deriving DecidableEq

/-- The `STARTCHAR` initialization `{ name: data[1], bytes: [], bitmap: [] }`. -/
def newChar (name : Option String) : CharRaw :=
  ⟨name, [], [], none, none, none, none, none, none, none⟩

/-- Assignment `this.glyphs[k] = v` on the JS glyphs object, keyed by the
stringified code (`none` is the key `"undefined"`): replaces the value of
an existing key, appends a new key. -/
def jsObjSet (l : List (Option Int × CharRaw)) (k : Option Int) (v : CharRaw) :
    List (Option Int × CharRaw) :=
  match l with
  | [] => [(k, v)]
  | (k0, v0) :: rest => if k0 = k then (k, v) :: rest else (k0, v0) :: jsObjSet rest k v

/-- The mutable state of one `_populate` run: the two instance fields
being populated plus the two loop locals `declarationStack` and
`currentChar`. -/
structure PState where
  meta : MetaRaw
  glyphs : List (Option Int × CharRaw)
  stack : List String
  cur : Option CharRaw
deriving DecidableEq

/-- The state `_populate` starts from after `this.meta = {};
this.glyphs = {};`. -/
def initPState : PState := ⟨emptyMeta, [], [], none⟩

/-- One row's bytes under a `BITMAP` declaration:
`parseInt(bytesLine.substr(byteIndex * 2, 2), 16)` for
`byteIndex = 0 .. bytesPerLine - 1`. -/
def decodeRowBytes (bytesLine : String) (bpl : Nat) : List (Option Int) :=
  (List.range bpl).map (fun bi => jsParseIntHex (substr2 bytesLine (2 * bi)))

/-- The eight bits of one byte, most significant first: the source writes
`bitmap[row][(byteIndex * 8) + (7 - bit)] = byte & (1 << bit) ? 1 : 0` for
`bit = 7 .. 0`, i.e. positions `byteIndex * 8 + 0 .. byteIndex * 8 + 7` in
increasing order.  A `NaN` byte coerces to `0` under `&`, so all its bits
are `0`. -/
def byteToBits (b : Option Int) : List Int :=
  (List.range 8).map
    (fun j =>
      match b with
      | none => 0
      | some v => if Int.land v ((2 : Int) ^ (7 - j)) ≠ 0 then 1 else 0)

/-- The full bit row for one `BITMAP` line: each of the row's bytes
unpacked most-significant-bit first, at consecutive positions (there is no
truncation to the declared glyph width). -/
def rowBitsOf (rowBytes : List (Option Int)) : List Int :=
  (rowBytes.map byteToBits).flatten

/-- The row loop of the `BITMAP` case: for each of `cnt` rows, read the
next line (`fontLines[i + 1]`), assign `bitmap[row] = []`, then decode
`bpl` bytes from it, pushing them onto `bytes` and their bits onto
`bitmap[row]`.  When the lines run out: with `bpl = 0` the undefined line
is never dereferenced and the loop keeps running, and with `bpl > 0` the
`undefined.substr` call throws a `TypeError` (after `bitmap[row] = []` has
already been assigned).  Returns the updated `bytes` and `bitmap`, the
lines remaining after the consumed rows, and the error if any. -/
def decodeBitmapRows (bpl : Nat) :
    Nat → Nat → List String → List (Option Int) → List (List Int) →
    List (Option Int) × List (List Int) × List String × Option JsErr
  | 0, _, lines, bytes, bm => (bytes, bm, lines, none)
  | cnt + 1, row, [], bytes, bm =>
    if bpl = 0 then decodeBitmapRows bpl cnt (row + 1) [] bytes (jsSetList bm row [] [])
    else (bytes, jsSetList bm row [] [], [], some .typeError)
  | cnt + 1, row, l :: ls, bytes, bm =>
    let rb := decodeRowBytes l bpl
    decodeBitmapRows bpl cnt (row + 1) ls (bytes ++ rb) (jsSetList bm row [] (rowBitsOf rb))

/-- The keywords the `switch` statement of `_populate` dispatches on;
`other` is the default (ignored) case. -/
inductive Keyword where
  | kSTARTFONT | kFONT | kSIZE | kFONTBOUNDINGBOX | kSTARTPROPERTIES
  | kFONT_DESCENT | kFONT_ASCENT | kDEFAULT_CHAR | kENDPROPERTIES | kCHARS
  | kSTARTCHAR | kENCODING | kSWIDTH | kDWIDTH | kBBX | kBITMAP | kENDCHAR
  | kENDFONT | other
deriving DecidableEq

/-- Selection of the `switch` case from the `declaration` token (exact
string comparison, like JS `switch` on strings). -/
def keywordOf (s : String) : Keyword :=
  if s = "STARTFONT" then .kSTARTFONT
  else if s = "FONT" then .kFONT
  else if s = "SIZE" then .kSIZE
  else if s = "FONTBOUNDINGBOX" then .kFONTBOUNDINGBOX
  else if s = "STARTPROPERTIES" then .kSTARTPROPERTIES
  else if s = "FONT_DESCENT" then .kFONT_DESCENT
  else if s = "FONT_ASCENT" then .kFONT_ASCENT
  else if s = "DEFAULT_CHAR" then .kDEFAULT_CHAR
  else if s = "ENDPROPERTIES" then .kENDPROPERTIES
  else if s = "CHARS" then .kCHARS
  else if s = "STARTCHAR" then .kSTARTCHAR
  else if s = "ENCODING" then .kENCODING
  else if s = "SWIDTH" then .kSWIDTH
  else if s = "DWIDTH" then .kDWIDTH
  else if s = "BBX" then .kBBX
  else if s = "BITMAP" then .kBITMAP
  else if s = "ENDCHAR" then .kENDCHAR
  else if s = "ENDFONT" then .kENDFONT
  else .other

/-- One iteration of the line loop of `_populate`, processing the head
`line` (with `rest` the lines after it): the `switch` on the first
whitespace-separated token.  Returns the updated state, the lines
remaining for the next iteration (only the `BITMAP` case consumes more
than the head line), and the error thrown by the iteration, if any.  The
source locals `data` (the token array) and `declaration` (`data[0]`) are
inlined as `jsSplitWS line` and `(jsSplitWS line).headD ""`. -/
def processLine (line : String) (rest : List String) (st : PState) :
    PState × List String × Option JsErr :=
  match keywordOf ((jsSplitWS line).headD "") with
  | .kSTARTFONT =>
    ({ st with stack := "STARTFONT" :: st.stack,
               meta := { st.meta with version := (jsSplitWS line)[1]? } }, rest, none)
  | .kFONT =>
    ({ st with meta := { st.meta with name := (jsSplitWS line)[1]? } }, rest, none)
  | .kSIZE =>
    ({ st with meta :=
      { st.meta with size :=
        (some ⟨jsToNum (jsSplitWS line)[1]?, jsToNum (jsSplitWS line)[2]?,
          jsToNum (jsSplitWS line)[3]?⟩) } }, rest, none)
  | .kFONTBOUNDINGBOX =>
    ({ st with meta :=
      { st.meta with boundingBox :=
        (some ⟨jsToNum (jsSplitWS line)[1]?, jsToNum (jsSplitWS line)[2]?,
          jsToNum (jsSplitWS line)[3]?, jsToNum (jsSplitWS line)[4]?⟩) } }, rest, none)
  | .kSTARTPROPERTIES =>
    ({ st with stack := "STARTPROPERTIES" :: st.stack,
               meta := { st.meta with properties := some emptyProps } }, rest, none)
  | .kFONT_DESCENT =>
    match st.meta.properties with
    | none => (st, rest, some .typeError)
    | some p =>
      ({ st with meta :=
        { st.meta with properties :=
          (some { p with fontDescent := jsToNum (jsSplitWS line)[1]? }) } }, rest, none)
  | .kFONT_ASCENT =>
    match st.meta.properties with
    | none => (st, rest, some .typeError)
    | some p =>
      ({ st with meta :=
        { st.meta with properties :=
          (some { p with fontAscent := jsToNum (jsSplitWS line)[1]? }) } }, rest, none)
  | .kDEFAULT_CHAR =>
    match st.meta.properties with
    | none => (st, rest, some .typeError)
    | some p =>
      ({ st with meta :=
        { st.meta with properties :=
          (some { p with defaultChar := jsToNum (jsSplitWS line)[1]? }) } }, rest, none)
  | .kENDPROPERTIES =>
    ({ st with stack := st.stack.tail }, rest, none)
  | .kCHARS =>
    ({ st with meta :=
      { st.meta with totalChars := jsToNum (jsSplitWS line)[1]? } }, rest, none)
  | .kSTARTCHAR =>
    ({ st with stack := "STARTCHAR" :: st.stack,
               cur := some (newChar (jsSplitWS line)[1]?) }, rest, none)
  | .kENCODING =>
    match st.cur with
    | none => (st, rest, some .typeError)
    | some c =>
      ({ st with cur :=
        (some { c with code := jsToNum (jsSplitWS line)[1]?,
                       charCode := jsToNum (jsSplitWS line)[1]? }) }, rest, none)
  | .kSWIDTH =>
    match st.cur with
    | none => (st, rest, some .typeError)
    | some c =>
      ({ st with cur :=
        (some { c with scalableWidthX := jsToNum (jsSplitWS line)[1]?,
                       scalableWidthY := jsToNum (jsSplitWS line)[2]? }) }, rest, none)
  | .kDWIDTH =>
    match st.cur with
    | none => (st, rest, some .typeError)
    | some c =>
      ({ st with cur :=
        (some { c with deviceWidthX := jsToNum (jsSplitWS line)[1]?,
                       deviceWidthY := jsToNum (jsSplitWS line)[2]? }) }, rest, none)
  | .kBBX =>
    match st.cur with
    | none => (st, rest, some .typeError)
    | some c =>
      ({ st with cur :=
        (some { c with boundingBox :=
          (some ⟨jsToNum (jsSplitWS line)[1]?, jsToNum (jsSplitWS line)[2]?,
            jsToNum (jsSplitWS line)[3]?, jsToNum (jsSplitWS line)[4]?⟩) }) }, rest, none)
  | .kBITMAP =>
    match st.cur with
    | none => (st, rest, some .typeError)
    | some c =>
      match c.boundingBox with
      | none => (st, rest, some .typeError)
      | some bb =>
        match decodeBitmapRows (jsLoopCount (bb.width.map ceilDiv8)) (jsLoopCount bb.height)
            0 rest c.bytes c.bitmap with
        | (bytes1, bm1, rest1, err1) =>
          ({ st with cur := (some { c with bytes := bytes1, bitmap := bm1 }) }, rest1, err1)
  | .kENDCHAR =>
    match st.cur with
    | none => ({ st with stack := st.stack.tail }, rest, some .typeError)
    | some c =>
      ({ st with stack := st.stack.tail, glyphs := jsObjSet st.glyphs c.code c,
                 cur := none }, rest, none)
  | .kENDFONT =>
    ({ st with stack := st.stack.tail }, rest, none)
  | .other =>
    (st, rest, none)

/-- The line loop of `_populate`: one `processLine` step per iteration,
stopping at the first thrown error.  `fuel` only makes the recursion
structural; it is always called with `fuel ≥ lines.length`, which
suffices because every step consumes at least the head line and the
remaining lines it returns are a suffix of `rest`. -/
def processLinesF : Nat → List String → PState → PState × Option JsErr
  | _, [], st => (st, none)
  | 0, _ :: _, st => (st, some .nonTermination)
  | fuel + 1, line :: rest, st =>
    match processLine line rest st with
    | (st1, _, some e) => (st1, some e)
    | (st1, rest1, none) => processLinesF fuel rest1 st1

/-- The line loop with its fuel fixed to the line count. -/
def processLines (lines : List String) (st : PState) : PState × Option JsErr :=
  processLinesF lines.length lines st

/-- The observable instance state of a `BDF` object: `this.meta` and
`this.glyphs`, both `null` before any load. -/
structure BDFState where
  meta : Option MetaRaw
  glyphs : Option (List (Option Int × CharRaw))
deriving DecidableEq

/-- The `_populate(path, data)` method as a state transformer on the
instance fields, `data = none` modelling an absent (`undefined`) argument.
Returns the instance state after the call together with the error thrown,
if any: the empty-data throw happens before `this.meta`/`this.glyphs` are
reset, the final unbalanced-stack throw after the whole pass. -/
def populate (data : Option String) (st : BDFState) : BDFState × Option JsErr :=
  if data = none ∨ data = some "" then (st, some .malformedFont)
  else
    let lines := splitLines (data.getD "")
    let r := processLines lines initPState
    let st' : BDFState := ⟨some r.1.meta, some r.1.glyphs⟩
    match r.2 with
    | some e => (st', some e)
    | none => if r.1.stack = [] then (st', none) else (st', some .malformedFont)

/-! The text compositor `writeText`.  It is embedded over the spec's data
model of a loaded font: a `Font` value with the integer fields `writeText`
reads (`meta.boundingBox`, `meta.properties.defaultChar`, and per glyph
the bitmap, `deviceWidthX` and bounding box). -/

/-- A bounding box with the field names of the source
(`x`/`y` are the spec's `originX`/`originY`). -/
structure BBox where
  width : Int
  height : Int
  x : Int
  y : Int
deriving DecidableEq

/-- The slice of a glyph that `writeText` reads. -/
structure Glyph where
  code : Int
  bitmap : List (List Int)
  deviceWidthX : Int
  boundingBox : BBox
deriving DecidableEq

/-- The slice of `this.meta.properties` that `writeText` reads. -/
structure Props where
  defaultChar : Int
deriving DecidableEq

/-- The slice of `this.meta` that `writeText` reads. -/
structure FontMeta where
  boundingBox : BBox
  properties : Props
deriving DecidableEq

/-- A loaded font: metadata plus the glyph table, an association list
keyed by character code (JS object keys are unique; lookup takes the
first binding). -/
structure Font where
  meta : FontMeta
  glyphs : List (Int × Glyph)
deriving DecidableEq

/-- The `options` argument of `writeText`; an absent property is `none`. -/
structure JsOptions where
  textRepeat : Option Int
  kerningBias : Option Int
deriving DecidableEq

/-- The `_bitmap` object `writeText` builds: its `width` and `height`
properties and the numbered row properties `0 .. height - 1`. -/
structure JsBitmap where
  width : Int
  height : Int
  rows : List (List Int)
deriving DecidableEq

/-- JS `x || d` for a possibly-absent number property: `undefined` and `0`
are falsy. -/
def jsOrInt (o : Option Int) (d : Int) : Int :=
  match o with
  | none => d
  | some v => if v = 0 then d else v

/-- Lookup `this.glyphs[code]`. -/
def lookupGlyph (font : Font) (code : Int) : Option Glyph :=
  font.glyphs.lookup code

/-- Duplicate-free key list in first-occurrence order (JS object keys are
unique; this is the identity on glyph tables built by `_populate`). -/
def dedupFirst : List Int → List Int
  | [] => []
  | k :: ks => k :: (dedupFirst ks).filter (fun k0 => k0 ≠ k)

/-- JS `Object.keys(this.glyphs)`: array-index keys (the non-negative
codes) first in ascending numeric order, then the remaining keys in
insertion order. -/
def jsKeys (l : List (Int × Glyph)) : List Int :=
  let ks := dedupFirst (l.map (fun p => p.1))
  (List.insertionSort (· ≤ ·) (ks.filter (fun k => 0 ≤ k))) ++ ks.filter (fun k => k < 0)

/-- The missing-character replacement chain of `writeText`: the glyph for
the character itself, else for `this.meta.properties.defaultChar`, else
for `"?"` (code 63), else `this.glyphs[Object.keys(this.glyphs)[0]]`
(`none` when the font has no glyphs at all: `keys[0]` is `undefined` and
so is the final `glyphData`). -/
def resolveGlyph (font : Font) (code : Int) : Option Glyph :=
  match lookupGlyph font code with
  | some g => some g
  | none =>
    match lookupGlyph font font.meta.properties.defaultChar with
    | some g => some g
    | none =>
      match lookupGlyph font 63 with
      | some g => some g
      | none =>
        match jsKeys font.glyphs with
        | [] => none
        | k :: _ => lookupGlyph font k

/-- The inner loop of "Extend bitmap to the right with zeros": for
`glyphColumn = 0 .. columnsToAdd - 1`, `_bitmap[row][glyphColumn + width] = 0`. -/
def growRow (r : List Int) (width : Int) (cta : Int) : List Int :=
  (List.range cta.toNat).foldl (fun r0 (gc : Nat) => jsSetIdx r0 (width + gc) 0) r

/-- The outer loop of the canvas extension, over the rows
`0 .. height - 1` (exactly the rows of the bitmap object). -/
def growRows (rows : List (List Int)) (width : Int) (cta : Int) : List (List Int) :=
  rows.map (fun r => growRow r width cta)

/-- The compound assignment `_bitmap[row][column] |= v`: reads the cell
(an absent index is `undefined`, coerced to `0` by `|`), ORs, writes
back. -/
def jsOrSet (r : List Int) (c : Int) (v : Int) : List Int :=
  if c < 0 then r
  else jsSetIdx r c (Int.lor (r.getD c.toNat 0) v)

/-- One step of the glyph-drawing inner loop, at glyph cell `(y, x)`:
`_bitmap[rowStart + y][xpos + glyphData.boundingBox.x + x] |=
glyphData.bitmap[y][x]`.  Reading `_bitmap[row]` throws a `TypeError`
when `row` is outside `0 .. height - 1` (those are the only numbered
properties of `_bitmap`), and reading `glyphData.bitmap[y]` throws when
the glyph bitmap has no row `y`; a short glyph bitmap row reads as
`undefined`, coerced to `0`. -/
def stampCell (g : Glyph) (height rowStart xpos : Int) (rows : List (List Int))
    (y x : Nat) : Except JsErr (List (List Int)) :=
  let row := rowStart + y
  if row < 0 ∨ height ≤ row then .error .typeError
  else
    match g.bitmap[y]? with
    | none => .error .typeError
    | some bits =>
      let column := xpos + g.boundingBox.x + x
      .ok (rows.set row.toNat (jsOrSet (rows.getD row.toNat []) column (bits.getD x 0)))

/-- The glyph-drawing loops: `y` over `0 .. boundingBox.height - 1`, `x`
over `0 .. boundingBox.width - 1`. -/
def stampGlyph (g : Glyph) (height rowStart xpos : Int) (rows : List (List Int)) :
    Except JsErr (List (List Int)) :=
  (List.range g.boundingBox.height.toNat).foldlM
    (fun rs y =>
      (List.range g.boundingBox.width.toNat).foldlM
        (fun rs0 x => stampCell g height rowStart xpos rs0 y x) rs)
    rows

/-- The per-character state of `writeText`: the committed `_bitmap.width`,
the cursor `xpos` and the canvas rows. -/
structure CompState where
  width : Int
  xpos : Int
  rows : List (List Int)
deriving DecidableEq

/-- The character loop of `writeText`.  For each character: resolve the
glyph (a failed resolution leaves `glyphData` `undefined` and the
following `glyphData.boundingBox` access throws a `TypeError`), compute
`rowStart` and `columnsToAdd`, adjust `xpos` for a leftward-extending
bounding box, extend the canvas, draw the glyph, advance `xpos`. -/
def writeChars (font : Font) (kerningBias height baseline : Int) :
    List Int → CompState → Except JsErr CompState
  | [], st => .ok st
  | code :: cs, st =>
    match resolveGlyph font code with
    | none => .error .typeError
    | some g =>
      let rowStart := baseline - g.boundingBox.y - g.boundingBox.height
      let cta0 := max g.deviceWidthX g.boundingBox.width
      let xpos := if st.width < -g.boundingBox.x then -g.boundingBox.x else st.xpos
      let cta := if st.width < -g.boundingBox.x then cta0 + -g.boundingBox.x else cta0
      let rows := growRows st.rows st.width cta
      let width := st.width + cta
      match stampGlyph g height rowStart xpos rows with
      | .error e => .error e
      | .ok rows' =>
        writeChars font kerningBias height baseline cs
          ⟨width, xpos + g.deviceWidthX + kerningBias, rows'⟩

/-- The straight-line part of one `writeText(text, options, _bitmap)`
activation, everything before the repeat check: option defaults, canvas
setup (`_bitmap` created fresh when absent), and the character loop; the
local `xpos` starts at `0` in every activation.  Returns the updated
bitmap (`_bitmap.width` is updated by the loop, `_bitmap.height` is kept
from the setup). -/
def writeTextBody (font : Font) (text : List Int) (options : JsOptions)
    (bm0 : Option JsBitmap) : Except JsErr JsBitmap :=
  let kerningBias := jsOrInt options.kerningBias 0
  let height := font.meta.boundingBox.height
  let yoffset := font.meta.boundingBox.y
  let baseline := height + yoffset
  let bm :=
    match bm0 with
    | some b => b
    | none => ⟨0, height, List.replicate height.toNat []⟩
  match writeChars font kerningBias height baseline text ⟨bm.width, 0, bm.rows⟩ with
  | .error e => .error e
  | .ok st => .ok ⟨st.width, bm.height, st.rows⟩

/-- One `writeText(text, options, _bitmap)` activation: the straight-line
body followed by the repeat tail — `if (textRepeat > 0)
{ options.textRepeat--; return this.writeText(text, options, _bitmap) }`.
The fuel only makes the recursion structural: it is initialized (in
`writeText`) to `textRepeat`, which is exactly the number of recursive
calls since each pass decrements `options.textRepeat` by one, so the
`nonTermination` branch of the zero-fuel equation is unreachable. -/
def writeTextFuel (font : Font) (text : List Int) :
    Nat → JsOptions → Option JsBitmap → Except JsErr (JsBitmap × JsOptions)
  | 0, options, bm0 =>
    match writeTextBody font text options bm0 with
    | .error e => .error e
    | .ok bm' =>
      if 0 < jsOrInt options.textRepeat 0 then .error .nonTermination
      else .ok (bm', options)
  | fuel + 1, options, bm0 =>
    match writeTextBody font text options bm0 with
    | .error e => .error e
    | .ok bm' =>
      if 0 < jsOrInt options.textRepeat 0 then
        writeTextFuel font text fuel
          { options with textRepeat := options.textRepeat.map (fun t => t - 1) } (some bm')
      else .ok (bm', options)

/-- The public `writeText(text, options)` call (`_bitmap` absent unless
supplied), the text given as its sequence of character codes. -/
def writeText (font : Font) (text : List Int) (options : JsOptions)
    (bm0 : Option JsBitmap) : Except JsErr (JsBitmap × JsOptions) :=
  writeTextFuel font text (jsOrInt options.textRepeat 0).toNat options bm0

/-! Concrete fonts and font texts used to instantiate the theorems. -/

/-- A font of height 1 with the single glyph `A` (code 65): a one-pixel
ink bitmap, advance width 1, bounding box at the origin. -/
def fontOne : Font := ⟨⟨⟨8, 1, 0, 0⟩, ⟨0⟩⟩, [(65, ⟨65, [[1]], 1, ⟨1, 1, 0, 0⟩⟩)]⟩

/-- Like `fontOne` but the glyph's bounding box extends `k + 1` columns to
the left of its origin (`originX = -(k + 1)`). -/
def fontNegXK (k : Nat) : Font :=
  ⟨⟨⟨8, 1, 0, 0⟩, ⟨0⟩⟩, [(65, ⟨65, [[1]], 1, ⟨1, 1, -(k + 1 : Int), 0⟩⟩)]⟩

/-- The `originX = -2` instance of `fontNegXK`. -/
def fontNegX : Font := fontNegXK 1

/-- A font whose canvas is 1 row tall but whose single glyph declares a
bounding box 2 rows tall: stamping it computes `rowStart = -1`, a row
index outside the canvas. -/
def fontTall : Font := ⟨⟨⟨8, 1, 0, 0⟩, ⟨0⟩⟩, [(65, ⟨65, [[1], [1]], 1, ⟨1, 2, 0, 0⟩⟩)]⟩

/-- A well-formed one-glyph BDF text whose glyph declares width 4 and one
bitmap row `40`. -/
def f2txt : String :=
  "STARTFONT 2.1\nSTARTCHAR A\nENCODING 65\nBBX 4 1 0 0\nBITMAP\n40\nENDCHAR\nENDFONT"

/-- A font text that opens `STARTFONT` (and sets the name) but never
closes it. -/
def c5txt : String := "STARTFONT 2.1\nFONT foo"

/-- The bitmap of the committed glyph with the given code, read off a
parsed instance state. -/
def parsedGlyphBitmap (st : BDFState) (code : Int) : Option (List (List Int)) :=
  ((st.glyphs.getD []).lookup (some code)).map (fun c => c.bitmap)

/-! Claim theorems. -/

/-- C1 (code bug, evaluation at the failing input): with the one-glyph
font `fontOne`, `writeText("A", {textRepeat: 1})` yields the canvas
`[[1, 0]]` of width 2, while the single-pass rendering is `[[1]]` of
width `k = 1`: the second `k`-column block of the repeat output is blank
instead of repeating the rendering, because the repeat pass resets `xpos`
to 0 and ORs the text over the first pass while the canvas keeps growing
on the right. -/
theorem c1_textRepeat_overlaps_eval :
    writeText fontOne [65] ⟨some 1, none⟩ none = .ok (⟨2, 1, [[1, 0]]⟩, ⟨some 0, none⟩) ∧
    writeText fontOne [65] ⟨none, none⟩ none = .ok (⟨1, 1, [[1]]⟩, ⟨none, none⟩) ∧
    [[(1 : Int), 0]].map (fun r => r.drop 1) ≠ [[(1 : Int)]].map id := by
  refine ⟨rfl, rfl, by decide⟩

/-- C4 (code bug, evaluation at the failing input): stamping the glyph of
`fontTall` computes `rowStart = -1`; the write `_bitmap[-1][0] |= ...`
dereferences an undefined row and the call dies with a `TypeError`
(there is no `GlyphGeometryError` anywhere in the code). -/
theorem c4_row_out_of_bounds_eval :
    writeText fontTall [65] ⟨none, none⟩ none = .error .typeError ∧
    JsErr.typeError ≠ JsErr.malformedFont := by
  exact ⟨rfl, by decide⟩

/-- C8 (confirmed): for every font, `writeText("")` with no options
returns a bitmap of width 0 and height `meta.boundingBox.height` whose
rows are all empty. -/
theorem c8_empty_text (font : Font) :
    writeText font [] ⟨none, none⟩ none =
      .ok (⟨0, font.meta.boundingBox.height,
            List.replicate font.meta.boundingBox.height.toNat []⟩, ⟨none, none⟩) ∧
    ∀ r ∈ List.replicate font.meta.boundingBox.height.toNat ([] : List Int), r = [] := by
  constructor
  · simp [writeText, writeTextFuel, writeTextBody, writeChars, jsOrInt]
  · exact fun r hr => List.eq_of_mem_replicate hr

/-- C2 (counterexample): parsing `f2txt` succeeds and commits a glyph
whose declared width is 4 but whose decoded bitmap row is
`[0, 1, 0, 0, 0, 0, 0, 0]` — eight entries, the full unpacked byte, not
the claimed truncation of byte `0x40` to the four bits `[0, 1, 0, 0]`. -/
theorem c2_counterexample :
    (populate (some f2txt) ⟨none, none⟩).2 = none ∧
    parsedGlyphBitmap (populate (some f2txt) ⟨none, none⟩).1 65 =
      some [[0, 1, 0, 0, 0, 0, 0, 0]] ∧
    ¬ ([(0 : Int), 1, 0, 0, 0, 0, 0, 0].length = 4) := by
  exact ⟨rfl, rfl, by decide⟩

/-- C3 (counterexample): compositing the single glyph of `fontNegX`
(`originX = -2`, one ink pixel in the leftmost bitmap column) yields the
canvas `[[1, 0, 0]]`: the ink is at column 0, so the canvas does not start
with `-originX = 2` all-zero columns before the ink. -/
theorem c3_counterexample :
    writeText fontNegX [65] ⟨none, none⟩ none = .ok (⟨3, 1, [[1, 0, 0]]⟩, ⟨none, none⟩) ∧
    ¬ ([(1 : Int), 0, 0].getD 0 0 = 0 ∧ [(1 : Int), 0, 0].getD 1 0 = 0) := by
  exact ⟨rfl, by decide⟩

/-- C5 (counterexample): `_populate` on a text with an unterminated
`STARTFONT` section throws the malformed-font error, yet the instance
state observable after the failed call is not the state from before the
call — the partially populated `meta`/`glyphs` are left behind. -/
theorem c5_counterexample :
    (populate (some c5txt) ⟨none, none⟩).2 = some .malformedFont ∧
    (populate (some c5txt) ⟨none, none⟩).1 ≠ ⟨none, none⟩ := by
  exact ⟨rfl, by decide⟩

/-- C5 (amended): the empty/absent-input failure happens before
`this.meta`/`this.glyphs` are touched, so that failure leaves the state
unchanged; the unbalanced-sections failure happens after the pass, leaving
the partially populated state exposed (here, the parsed font name
`"foo"`). -/
theorem c5_amended (st : BDFState) :
    populate none st = (st, some .malformedFont) ∧
    populate (some "") st = (st, some .malformedFont) ∧
    ((populate (some c5txt) ⟨none, none⟩).1.meta.map (fun m => m.name)) =
      some (some "foo") := by
  refine ⟨?_, ?_, rfl⟩ <;> simp [populate]

/-- C6 (confirmed): `_populate` fails with the malformed-font error when
the data is absent or empty, and when the pass over all lines completes
(without a JS error) leaving the section stack non-empty. -/
theorem c6_malformed_conditions (st : BDFState) (data : String) (pst : PState) :
    (populate none st).2 = some .malformedFont ∧
    (populate (some "") st).2 = some .malformedFont ∧
    (processLines (splitLines data) initPState = (pst, none) → pst.stack ≠ [] →
      (populate (some data) st).2 = some .malformedFont) := by
  refine ⟨by simp [populate], by simp [populate], fun hrun hstk => ?_⟩
  by_cases hemp : data = ""
  · subst hemp
    simp [populate]
  · simp only [populate]
    rw [if_neg (by simp [hemp])]
    simp only [Option.getD_some, hrun]
    rw [if_neg hstk]

/-- Witness for `c6_malformed_conditions`: the single line
`STARTFONT 2.1` leaves `STARTFONT` open, and parsing it indeed fails with
the malformed-font error. -/
theorem c6_witness :
    (populate (some "STARTFONT 2.1") ⟨none, none⟩).2 = some .malformedFont := by
  exact (c6_malformed_conditions ⟨none, none⟩ "STARTFONT 2.1"
    (processLines (splitLines "STARTFONT 2.1") initPState).1).2.2 rfl (by decide)

/-! Shape of the `BITMAP` decoding (claim C2). -/

theorem decodeRowBytes_length (l : String) (bpl : Nat) :
    (decodeRowBytes l bpl).length = bpl := by
  simp [decodeRowBytes]

theorem byteToBits_length (b : Option Int) : (byteToBits b).length = 8 := by
  simp [byteToBits]

theorem rowBitsOf_length (rb : List (Option Int)) :
    (rowBitsOf rb).length = rb.length * 8 := by
  induction rb with
  | nil => rfl
  | cons b rb ih =>
    have hstep : rowBitsOf (b :: rb) = byteToBits b ++ rowBitsOf rb := by
      simp [rowBitsOf]
    rw [hstep, List.length_append, byteToBits_length, ih, List.length_cons]
    ring

theorem jsSetList_at_length {α : Type} (l : List α) (pad v : α) :
    jsSetList l l.length pad v = l ++ [v] := by
  simp [jsSetList]

/-- Every row the `BITMAP` loop decodes is appended in order; with enough
lines left, the loop succeeds, consumes exactly `cnt` lines, pushes
`bpl * cnt` bytes, and builds `cnt` rows of `bpl * 8` bits each. -/
theorem decodeBitmapRows_ok (bpl : Nat) :
    ∀ (cnt : Nat) (lines : List String) (bytes0 : List (Option Int))
      (bm0 : List (List Int)), cnt ≤ lines.length →
      ∃ nb nr,
        decodeBitmapRows bpl cnt bm0.length lines bytes0 bm0 =
          (bytes0 ++ nb, bm0 ++ nr, lines.drop cnt, none) ∧
        nb.length = bpl * cnt ∧ nr.length = cnt ∧ ∀ r ∈ nr, r.length = bpl * 8 := by
  intro cnt
  induction cnt with
  | zero =>
    intro lines bytes0 bm0 h
    exact ⟨[], [], by simp [decodeBitmapRows], by simp, by simp, by simp⟩
  | succ cnt ih =>
    intro lines bytes0 bm0 h
    match lines with
    | [] => exact absurd h (by simp)
    | l :: ls =>
      have hls : cnt ≤ ls.length := by simpa using h
      have hset := jsSetList_at_length bm0 ([] : List Int)
        (rowBitsOf (decodeRowBytes l bpl))
      obtain ⟨nb, nr, heq, hnb, hnr, hrows⟩ :=
        ih ls (bytes0 ++ decodeRowBytes l bpl) (bm0 ++ [rowBitsOf (decodeRowBytes l bpl)]) hls
      refine ⟨decodeRowBytes l bpl ++ nb, rowBitsOf (decodeRowBytes l bpl) :: nr, ?_, ?_, ?_, ?_⟩
      · show decodeBitmapRows bpl (cnt + 1) bm0.length (l :: ls) bytes0 bm0 = _
        rw [decodeBitmapRows, hset]
        have hlen : (bm0 ++ [rowBitsOf (decodeRowBytes l bpl)]).length = bm0.length + 1 := by
          simp
        rw [← hlen, heq]
        simp
      · simp only [List.length_append, decodeRowBytes_length, hnb]
        ring
      · simp [hnr]
      · intro r hr
        rcases List.mem_cons.mp hr with hr | hr
        · subst hr
          rw [rowBitsOf_length, decodeRowBytes_length]
        · exact hrows r hr

/-- C2 (amended): for a glyph of declared width `w ≥ 0` and height `h`,
`bytesPerLine = ceil(w/8)`, and given at least `h` following lines, the
`BITMAP` decoding commits `bytesPerLine * h` bytes and a bitmap of
exactly `h` rows — but each row carries `bytesPerLine * 8` bit entries
(every byte unpacked most-significant-bit first, with no truncation to
`w` bits), so decoding byte `0x40` at width 4 yields the row
`[0, 1, 0, 0, 0, 0, 0, 0]`, whose first four bits are `[0, 1, 0, 0]`. -/
theorem c2_amended (bpl cnt : Nat) (lines : List String) (h : cnt ≤ lines.length) :
    (∃ bytes bm,
      decodeBitmapRows bpl cnt 0 lines [] [] = (bytes, bm, lines.drop cnt, none) ∧
      bytes.length = bpl * cnt ∧ bm.length = cnt ∧ ∀ r ∈ bm, r.length = bpl * 8) ∧
    jsLoopCount ((some (4 : Int)).map ceilDiv8) = 1 ∧
    rowBitsOf (decodeRowBytes "40" 1) = [0, 1, 0, 0, 0, 0, 0, 0] ∧
    (rowBitsOf (decodeRowBytes "40" 1)).take 4 = [0, 1, 0, 0] := by
  refine ⟨?_, rfl, rfl, rfl⟩
  obtain ⟨nb, nr, heq, hnb, hnr, hrows⟩ :=
    decodeBitmapRows_ok bpl cnt lines [] ([] : List (List Int)) h
  exact ⟨nb, nr, by simpa using heq, hnb, hnr, hrows⟩

/-- Witness for `c2_amended` at `bpl = 1`, `cnt = 1`, one line `40`. -/
theorem c2_amended_witness :
    (∃ bytes bm,
      decodeBitmapRows 1 1 0 ["40"] [] [] = (bytes, bm, ["40"].drop 1, none) ∧
      bytes.length = 1 * 1 ∧ bm.length = 1 ∧ ∀ r ∈ bm, r.length = 1 * 8) ∧
    jsLoopCount ((some (4 : Int)).map ceilDiv8) = 1 ∧
    rowBitsOf (decodeRowBytes "40" 1) = [0, 1, 0, 0, 0, 0, 0, 0] ∧
    (rowBitsOf (decodeRowBytes "40" 1)).take 4 = [0, 1, 0, 0] :=
  c2_amended 1 1 ["40"] (by decide)

/-! The repeat recursion and the mutation of `options` (claims C10, C1). -/

/-- Across the repeat recursion, a `writeText` activation that returns
normally hands back `options` with `textRepeat` counted down to zero
whenever its entry value was positive, and untouched otherwise. -/
theorem writeTextFuel_textRepeat (font : Font) (text : List Int) :
    ∀ (fuel : Nat) (opts : JsOptions) (bm0 : Option JsBitmap) (r : JsBitmap × JsOptions),
      writeTextFuel font text fuel opts bm0 = .ok r →
      r.2.textRepeat = if 0 < jsOrInt opts.textRepeat 0 then some 0 else opts.textRepeat := by
  intro fuel
  induction fuel with
  | zero =>
    intro opts bm0 r h
    rw [writeTextFuel] at h
    split at h
    · exact absurd h (by simp)
    · by_cases hrep : 0 < jsOrInt opts.textRepeat 0
      · rw [if_pos hrep] at h; exact absurd h (by simp)
      · rw [if_neg hrep] at h
        rw [if_neg hrep]
        cases h
        rfl
  | succ n ih =>
    intro opts bm0 r h
    rw [writeTextFuel] at h
    split at h
    · exact absurd h (by simp)
    · by_cases hrep : 0 < jsOrInt opts.textRepeat 0
      · rw [if_pos hrep] at h
        rw [if_pos hrep]
        have hres := ih _ _ _ h
        obtain ⟨t, ht⟩ : ∃ t, opts.textRepeat = some t := by
          cases hot : opts.textRepeat with
          | none => rw [hot] at hrep; simp [jsOrInt] at hrep
          | some t => exact ⟨t, rfl⟩
        rw [ht] at hrep
        have htpos : 0 < t := by
          by_cases ht0 : t = 0
          · rw [ht0] at hrep; simp [jsOrInt] at hrep
          · simpa [jsOrInt, ht0] using hrep
        rw [ht] at hres
        have hmap : (some t).map (fun t0 => t0 - 1) = some (t - 1) := rfl
        rw [hmap] at hres
        by_cases ht1 : t = 1
        · subst ht1
          simpa [jsOrInt] using hres
        · rwa [if_pos (by simp only [jsOrInt]; split <;> omega)] at hres
      · rw [if_neg hrep] at h
        rw [if_neg hrep]
        cases h
        rfl

/-- C10 (confirmed): when the caller passes `options.textRepeat = t > 0`
and `writeText(text, options)` returns, the returned state of the
caller's `options` object has `textRepeat = 0` — the source decrements
the property in place once per repeat pass. -/
theorem c10_textRepeat_reset (font : Font) (text : List Int) (opts : JsOptions)
    (t : Int) (r : JsBitmap × JsOptions) (h1 : opts.textRepeat = some t) (h2 : 0 < t)
    (h3 : writeText font text opts none = .ok r) :
    r.2.textRepeat = some 0 := by
  have := writeTextFuel_textRepeat font text _ opts none r h3
  rw [h1] at this
  rw [if_pos (by simp [jsOrInt]; omega)] at this
  exact this

/-- Witness for `c10_textRepeat_reset`: `fontOne`, text `"A"`,
`{textRepeat: 1}`. -/
theorem c10_witness :
    ((⟨2, 1, [[1, 0]]⟩, ⟨some 0, none⟩) : JsBitmap × JsOptions).2.textRepeat = some 0 :=
  c10_textRepeat_reset fontOne [65] ⟨some 1, none⟩ 1 _ rfl (by decide) rfl

/-! The key-equals-code invariant of the glyph table (claim C9). -/

/-- Every committed glyph sits under its own `code` as the key. -/
def glyphsInv (l : List (Option Int × CharRaw)) : Prop :=
  ∀ p ∈ l, p.2.code = p.1

theorem glyphsInv_jsObjSet {l : List (Option Int × CharRaw)} {c : CharRaw}
    (h : glyphsInv l) : glyphsInv (jsObjSet l c.code c) := by
  induction l with
  | nil =>
    intro p hp
    rw [jsObjSet, List.mem_singleton] at hp
    subst hp
    rfl
  | cons q l ih =>
    intro p hp
    rw [jsObjSet] at hp
    split at hp
    · rcases List.mem_cons.mp hp with hp | hp
      · subst hp; rfl
      · exact h p (List.mem_cons_of_mem q hp)
    · rcases List.mem_cons.mp hp with hp | hp
      · subst hp; exact h q (List.mem_cons_self q l)
      · exact ih (fun q0 hq0 => h q0 (List.mem_cons_of_mem q hq0)) p hp

/-- One line-loop iteration preserves the key-equals-code invariant: the
only transition that touches `this.glyphs` is `ENDCHAR`, which stores the
current glyph under its own `code`. -/
theorem processLine_inv (line : String) (rest : List String) (st : PState)
    (h : glyphsInv st.glyphs) : glyphsInv (processLine line rest st).1.glyphs := by
  rw [processLine]
  repeat' split
  all_goals first
    | exact h
    | exact glyphsInv_jsObjSet h

/-- The line loop preserves the key-equals-code invariant. -/
theorem processLinesF_inv :
    ∀ (fuel : Nat) (lines : List String) (st : PState), glyphsInv st.glyphs →
      glyphsInv (processLinesF fuel lines st).1.glyphs := by
  intro fuel
  induction fuel with
  | zero =>
    intro lines st h
    cases lines with
    | nil => exact h
    | cons line rest => exact h
  | succ n ih =>
    intro lines st h
    cases lines with
    | nil => exact h
    | cons line rest =>
      rw [processLinesF]
      split
      · next st1 rest1 e heq =>
        have hst := processLine_inv line rest st h
        rw [heq] at hst
        exact hst
      · next st1 rest1 heq =>
        have hst := processLine_inv line rest st h
        rw [heq] at hst
        exact ih _ _ hst

/-- C9 (confirmed): after every successful parse, every key of the glyph
table equals the `code` field of the glyph stored under it. -/
theorem c9_glyph_key_eq_code (data : Option String) (st st' : BDFState)
    (h : populate data st = (st', none)) :
    ∀ p ∈ st'.glyphs.getD [], p.2.code = p.1 := by
  simp only [populate] at h
  split at h
  · exact absurd (congrArg (fun q => q.2) h) (by simp)
  · split at h
    · exact absurd (congrArg (fun q => q.2) h) (by simp)
    · split at h
      · injection h with h1 h2
        subst h1
        intro p hp
        exact processLinesF_inv _ _ initPState (fun q hq => nomatch hq) p hp
      · exact absurd (congrArg (fun q => q.2) h) (by simp)

/-- Witness for `c9_glyph_key_eq_code`: the parse of `f2txt` succeeds and
its glyph table satisfies the invariant. -/
theorem c9_witness :
    ((populate (some f2txt) ⟨none, none⟩).1.glyphs.getD []).all
      (fun p => p.2.code == p.1) = true := by
  have h := c9_glyph_key_eq_code (some f2txt) ⟨none, none⟩ _ rfl
  exact List.all_eq_true.mpr (fun p hp => beq_iff_eq.mpr (h p hp))

/-! Missing-character resolution and when composition succeeds
(claims C7, C3). -/

theorem foldlM_ok {ε α β : Type} (f : β → α → Except ε β) (l : List α)
    (h : ∀ b a, a ∈ l → ∃ b2, f b a = .ok b2) :
    ∀ b, ∃ b2, l.foldlM f b = .ok b2 := by
  induction l with
  | nil => exact fun b => ⟨b, rfl⟩
  | cons a l ih =>
    intro b
    obtain ⟨b1, hb1⟩ := h b a (List.mem_cons_self a l)
    obtain ⟨b2, hb2⟩ := ih (fun b0 a0 ha0 => h b0 a0 (List.mem_cons_of_mem a ha0)) b1
    exact ⟨b2, by rw [List.foldlM_cons, hb1]; exact hb2⟩

theorem lookup_mem {l : List (Int × Glyph)} {k : Int} {g : Glyph}
    (h : l.lookup k = some g) : (k, g) ∈ l := by
  induction l with
  | nil => exact absurd h (by simp)
  | cons p l ih =>
    obtain ⟨k1, g1⟩ := p
    cases hk : k == k1 with
    | true =>
      simp only [List.lookup, hk] at h
      cases h
      have hk2 : k = k1 := eq_of_beq hk
      rw [hk2]
      exact List.mem_cons_self _ _
    | false =>
      simp only [List.lookup, hk] at h
      exact List.mem_cons_of_mem _ (ih h)

theorem lookup_of_key_mem {l : List (Int × Glyph)} {k : Int}
    (h : k ∈ l.map (fun p => p.1)) : ∃ g, l.lookup k = some g := by
  induction l with
  | nil => exact absurd h (by simp)
  | cons p l ih =>
    obtain ⟨k1, g1⟩ := p
    cases hbk : k == k1 with
    | true => exact ⟨g1, by simp [List.lookup, hbk]⟩
    | false =>
      rw [List.map_cons] at h
      rcases List.mem_cons.mp h with hk | hk
      · subst hk
        rw [beq_self_eq_true] at hbk
        exact absurd hbk (by simp)
      · obtain ⟨g, hg⟩ := ih hk
        exact ⟨g, by simp [List.lookup, hbk, hg]⟩

theorem dedupFirst_subset {x : Int} : ∀ {ks : List Int}, x ∈ dedupFirst ks → x ∈ ks := by
  intro ks
  induction ks with
  | nil => exact fun h => absurd h (by simp [dedupFirst])
  | cons k ks ih =>
    intro h
    rw [dedupFirst] at h
    rcases List.mem_cons.mp h with h | h
    · exact h ▸ List.mem_cons_self _ _
    · exact List.mem_cons_of_mem _ (ih (List.mem_of_mem_filter h))

theorem jsKeys_subset {l : List (Int × Glyph)} {k : Int} (h : k ∈ jsKeys l) :
    k ∈ l.map (fun p => p.1) := by
  rw [jsKeys] at h
  rcases List.mem_append.mp h with h | h
  · have := (List.perm_insertionSort (α := Int) (· ≤ ·) _).mem_iff.mp h
    exact dedupFirst_subset (List.mem_of_mem_filter this)
  · exact dedupFirst_subset (List.mem_of_mem_filter h)

theorem jsKeys_ne_nil {l : List (Int × Glyph)} (h : l ≠ []) : jsKeys l ≠ [] := by
  have hkeys : l.map (fun p => p.1) ≠ [] := by
    cases l with
    | nil => exact absurd rfl h
    | cons p l => simp
  obtain ⟨k0, ks0, hks⟩ : ∃ k0 ks0, dedupFirst (l.map (fun p => p.1)) = k0 :: ks0 := by
    cases hl : l.map (fun p => p.1) with
    | nil => exact absurd hl hkeys
    | cons a as => exact ⟨a, _, by rw [dedupFirst]⟩
  rw [jsKeys, hks]
  intro hnil
  rcases List.append_eq_nil.mp hnil with ⟨h1, h2⟩
  by_cases hk0 : 0 ≤ k0
  · have hs : k0 ∈ List.insertionSort (· ≤ ·) ((k0 :: ks0).filter (fun k => 0 ≤ k)) :=
      (List.perm_insertionSort (α := Int) (· ≤ ·) _).mem_iff.mpr
        (List.mem_filter.mpr ⟨List.mem_cons_self _ _, by simpa using hk0⟩)
    rw [h1] at hs
    exact absurd hs (by simp)
  · have hs : k0 ∈ (k0 :: ks0).filter (fun k => k < 0) :=
      List.mem_filter.mpr ⟨List.mem_cons_self _ _, by simp only [decide_eq_true_eq]; omega⟩
    rw [h2] at hs
    exact absurd hs (by simp)

/-- When the font has at least one glyph, the replacement chain always
lands on a glyph of the font. -/
theorem resolveGlyph_total (font : Font) (code : Int) (h : font.glyphs ≠ []) :
    ∃ g, resolveGlyph font code = some g ∧ ∃ k, (k, g) ∈ font.glyphs := by
  rw [resolveGlyph]
  cases h0 : lookupGlyph font code with
  | some g => exact ⟨g, rfl, code, lookup_mem h0⟩
  | none =>
    cases h1 : lookupGlyph font font.meta.properties.defaultChar with
    | some g => exact ⟨g, rfl, _, lookup_mem h1⟩
    | none =>
      cases h2 : lookupGlyph font 63 with
      | some g => exact ⟨g, rfl, _, lookup_mem h2⟩
      | none =>
        cases hk : jsKeys font.glyphs with
        | nil => exact absurd hk (jsKeys_ne_nil h)
        | cons k0 ks =>
          have hmem : k0 ∈ font.glyphs.map (fun p => p.1) :=
            jsKeys_subset (hk ▸ List.mem_cons_self _ _)
          obtain ⟨g, hg⟩ := lookup_of_key_mem hmem
          exact ⟨g, hg, k0, lookup_mem hg⟩

/-- A glyph's vertical geometry is consistent with a canvas of the given
height and baseline: either it stamps nothing (empty bounding box), or
all its rows `rowStart .. rowStart + height - 1` land inside
`[0, height)` and its bitmap has a row for each of them. -/
def glyphFitsAt (height baseline : Int) (g : Glyph) : Prop :=
  g.boundingBox.height ≤ 0 ∨ g.boundingBox.width ≤ 0 ∨
    (0 ≤ baseline - g.boundingBox.y - g.boundingBox.height ∧
     baseline - g.boundingBox.y ≤ height ∧
     g.boundingBox.height.toNat ≤ g.bitmap.length)

instance (height baseline : Int) (g : Glyph) : Decidable (glyphFitsAt height baseline g) := by
  unfold glyphFitsAt
  infer_instance

/-- `glyphFitsAt` for the canvas `writeText` builds for the font. -/
def glyphFits (font : Font) (g : Glyph) : Prop :=
  glyphFitsAt font.meta.boundingBox.height
    (font.meta.boundingBox.height + font.meta.boundingBox.y) g

instance (font : Font) (g : Glyph) : Decidable (glyphFits font g) := by
  unfold glyphFits
  infer_instance

theorem stampCell_ok (g : Glyph) (H rowStart xpos : Int) (y x : Nat)
    (h1 : 0 ≤ rowStart) (h2 : rowStart + g.boundingBox.height ≤ H)
    (h3 : g.boundingBox.height.toNat ≤ g.bitmap.length)
    (hy : y < g.boundingBox.height.toNat)
    (rows : List (List Int)) :
    ∃ r2, stampCell g H rowStart xpos rows y x = .ok r2 := by
  have hbit : y < g.bitmap.length := by omega
  have hnot : ¬(rowStart + (y : Int) < 0 ∨ H ≤ rowStart + (y : Int)) :=
    not_or.mpr ⟨by omega, by omega⟩
  rcases hres : stampCell g H rowStart xpos rows y x with e | r2
  · exfalso
    simp only [stampCell] at hres
    rw [if_neg hnot, List.getElem?_eq_getElem hbit] at hres
    simp at hres
  · exact ⟨r2, rfl⟩

theorem stampGlyph_ok (g : Glyph) (H baseline xpos : Int)
    (hfit : glyphFitsAt H baseline g) (rows : List (List Int)) :
    ∃ rows2,
      stampGlyph g H (baseline - g.boundingBox.y - g.boundingBox.height) xpos rows =
        .ok rows2 := by
  rcases hfit with hh | hw | ⟨h1, h2, h3⟩
  · refine ⟨rows, ?_⟩
    rw [stampGlyph, Int.toNat_eq_zero.mpr hh]
    rfl
  · apply foldlM_ok
    intro b y hy
    refine ⟨b, ?_⟩
    rw [Int.toNat_eq_zero.mpr hw]
    rfl
  · apply foldlM_ok
    intro b y hy
    apply foldlM_ok
    intro b2 x hx
    exact stampCell_ok g H _ xpos y x h1 (by omega) h3 (List.mem_range.mp hy) b2

/-- The character loop succeeds whenever the font is non-empty and all its
glyphs fit the canvas geometry. -/
theorem writeChars_ok (font : Font) (kb H baseline : Int)
    (hglyphs : font.glyphs ≠ [])
    (hfit : ∀ p ∈ font.glyphs, glyphFitsAt H baseline p.2) :
    ∀ (text : List Int) (st : CompState),
      ∃ st2, writeChars font kb H baseline text st = .ok st2 := by
  intro text
  induction text with
  | nil => exact fun st => ⟨st, rfl⟩
  | cons code cs ih =>
    intro st
    obtain ⟨g, hg, k, hmem⟩ := resolveGlyph_total font code hglyphs
    obtain ⟨rows2, hrows2⟩ :=
      stampGlyph_ok g H baseline
        (if st.width < -g.boundingBox.x then -g.boundingBox.x else st.xpos)
        (hfit (k, g) hmem)
        (growRows st.rows st.width
          (if st.width < -g.boundingBox.x then
            max g.deviceWidthX g.boundingBox.width + -g.boundingBox.x
          else max g.deviceWidthX g.boundingBox.width))
    obtain ⟨st2, hst2⟩ := ih _
    refine ⟨st2, ?_⟩
    rw [writeChars, hg]
    simp only [hrows2]
    exact hst2

/-- One activation body succeeds under the same conditions. -/
theorem writeTextBody_ok (font : Font) (text : List Int)
    (hglyphs : font.glyphs ≠ [])
    (hfit : ∀ p ∈ font.glyphs, glyphFits font p.2) :
    ∀ (opts : JsOptions) (bm0 : Option JsBitmap),
      ∃ bm, writeTextBody font text opts bm0 = .ok bm := by
  intro opts bm0
  cases bm0 with
  | none =>
    obtain ⟨st2, hst2⟩ :=
      writeChars_ok font (jsOrInt opts.kerningBias 0) font.meta.boundingBox.height
        (font.meta.boundingBox.height + font.meta.boundingBox.y) hglyphs hfit text
        ⟨0, 0, List.replicate font.meta.boundingBox.height.toNat []⟩
    rcases hres : writeTextBody font text opts none with e | bm
    · exfalso
      simp only [writeTextBody] at hres
      rw [hst2] at hres
      simp at hres
    · exact ⟨bm, rfl⟩
  | some b =>
    obtain ⟨st2, hst2⟩ :=
      writeChars_ok font (jsOrInt opts.kerningBias 0) font.meta.boundingBox.height
        (font.meta.boundingBox.height + font.meta.boundingBox.y) hglyphs hfit text
        ⟨b.width, 0, b.rows⟩
    rcases hres : writeTextBody font text opts (some b) with e | bm
    · exfalso
      simp only [writeTextBody] at hres
      rw [hst2] at hres
      simp at hres
    · exact ⟨bm, rfl⟩

/-- The repeat recursion succeeds when every pass does and the fuel covers
the repeat count. -/
theorem writeTextFuel_ok (font : Font) (text : List Int)
    (hglyphs : font.glyphs ≠ [])
    (hfit : ∀ p ∈ font.glyphs, glyphFits font p.2) :
    ∀ (fuel : Nat) (opts : JsOptions) (bm0 : Option JsBitmap),
      (jsOrInt opts.textRepeat 0).toNat ≤ fuel →
      ∃ r, writeTextFuel font text fuel opts bm0 = .ok r := by
  intro fuel
  induction fuel with
  | zero =>
    intro opts bm0 hle
    obtain ⟨bm, hbm⟩ := writeTextBody_ok font text hglyphs hfit opts bm0
    refine ⟨(bm, opts), ?_⟩
    simp only [writeTextFuel, hbm]
    rw [if_neg (by omega)]
  | succ n ih =>
    intro opts bm0 hle
    obtain ⟨bm, hbm⟩ := writeTextBody_ok font text hglyphs hfit opts bm0
    by_cases hrep : 0 < jsOrInt opts.textRepeat 0
    · obtain ⟨t, ht⟩ : ∃ t, opts.textRepeat = some t := by
        cases hot : opts.textRepeat with
        | none => rw [hot] at hrep; exact absurd hrep (by simp [jsOrInt])
        | some t => exact ⟨t, rfl⟩
      have htpos : 0 < t := by
        rw [ht] at hrep
        by_cases h0 : t = 0
        · rw [h0] at hrep; exact absurd hrep (by simp [jsOrInt])
        · simpa [jsOrInt, h0] using hrep
      have hle2 : t.toNat ≤ n + 1 := by
        rw [ht] at hle
        simp only [jsOrInt] at hle
        rwa [if_neg (by omega)] at hle
      obtain ⟨r, hr⟩ := ih { opts with textRepeat := opts.textRepeat.map (fun t0 => t0 - 1) }
        (some bm)
        (by
          rw [ht]
          simp only [jsOrInt, Option.map_some']
          split <;> omega)
      refine ⟨r, ?_⟩
      simp only [writeTextFuel, hbm]
      rw [if_pos hrep]
      exact hr
    · refine ⟨(bm, opts), ?_⟩
      simp only [writeTextFuel, hbm]
      rw [if_neg hrep]

/-- C7 (amended): when the font has at least one glyph, the replacement
chain always resolves to a glyph (never raising); and `writeText` returns
a bitmap provided additionally that every glyph of the font is
geometrically consistent with the canvas (rows within bounds and a
bitmap row for each bounding-box row) — without that proviso the call can
die stamping out of bounds. -/
theorem c7_amended (font : Font) (text : List Int) (opts : JsOptions) (code : Int)
    (hglyphs : font.glyphs ≠ [])
    (hfit : ∀ p ∈ font.glyphs, glyphFits font p.2) :
    (resolveGlyph font code).isSome ∧
    ∃ r, writeText font text opts none = .ok r := by
  constructor
  · obtain ⟨g, hg, _⟩ := resolveGlyph_total font code hglyphs
    rw [hg]
    rfl
  · exact writeTextFuel_ok font text hglyphs hfit _ opts none le_rfl

/-- Witness for `c7_amended`: `fontOne`, whose single glyph fits its
canvas, with the missing character `'B'` (code 66). -/
theorem c7_amended_witness :
    (resolveGlyph fontOne 66).isSome ∧
    ∃ r, writeText fontOne [66] ⟨none, none⟩ none = .ok r :=
  c7_amended fontOne [66] ⟨none, none⟩ 66 (by decide) (by decide)

theorem jsSetIdx_at_length (l : List Int) (v : Int) :
    jsSetIdx l (l.length : Int) v = l ++ [v] := by
  simp [jsSetIdx]

theorem growRowAux_append (r : List Int) (w : Int) (hw : w = (r.length : Int)) :
    ∀ n : Nat,
      List.foldl (fun (r0 : List Int) (gc : Nat) => jsSetIdx r0 (w + gc) 0) r (List.range n) =
      r ++ List.replicate n 0 := by
  intro n
  induction n with
  | zero => simp
  | succ n ih =>
    rw [List.range_succ, List.foldl_append, ih]
    simp only [List.foldl_cons, List.foldl_nil]
    have hlen : w + (n : Int) = (((r ++ List.replicate n 0).length : Nat) : Int) := by
      simp [hw]
    rw [hlen, jsSetIdx_at_length]
    simp [List.replicate_succ', List.append_assoc]

theorem growRow_append (r : List Int) (w cta : Int) (hw : w = (r.length : Int)) :
    growRow r w cta = r ++ List.replicate cta.toNat 0 := by
  rw [growRow]
  exact growRowAux_append r w hw cta.toNat

/-- C3 (amended): compositing a single glyph whose `boundingBox.originX`
is `-(k + 1)`, with magnitude exceeding the current canvas width of 0,
reserves `-originX` extra columns by setting `xpos = -originX`, which
stamps the glyph's ink starting at column 0 — zero all-zero columns
precede the ink, and the canvas width is `max(deviceWidthX, width) +
(-originX)` = `k + 2`, the reserved columns surfacing as trailing blank
space. -/
theorem c3_amended (k : Nat) :
    writeText (fontNegXK k) [65] ⟨none, none⟩ none =
      .ok (⟨(k : Int) + 2, 1, [1 :: List.replicate (k + 1) 0]⟩, ⟨none, none⟩) := by
  have hg : resolveGlyph (fontNegXK k) 65 =
      some ⟨65, [[1]], 1, ⟨1, 1, -((k : Int) + 1), 0⟩⟩ := rfl
  have hcond : (0 : Int) < -(-((k : Int) + 1)) := by omega
  have hneg : -(-((k : Int) + 1)) = (k : Int) + 1 := neg_neg _
  have htn : ((1 : Int) + ((k : Int) + 1)).toNat = k + 2 := by omega
  have hcol : ((k : Int) + 1) + (-((k : Int) + 1)) + ((0 : Nat) : Int) = 0 := by push_cast; ring
  have hr1 : List.range 1 = [0] := rfl
  have hstamp : stampGlyph ⟨65, [[1]], 1, ⟨1, 1, -((k : Int) + 1), 0⟩⟩ 1 0 ((k : Int) + 1)
      [List.replicate (k + 2) 0] = .ok [1 :: List.replicate (k + 1) 0] := by
    simp only [stampGlyph, Int.toNat_one, hr1, List.foldlM_cons, List.foldlM_nil, stampCell]
    rw [hcol]
    have hlor : Int.lor 0 1 = 1 := rfl
    norm_num [jsOrSet, jsSetIdx, List.replicate_succ, hlor]
  have hchars : writeChars (fontNegXK k) 0 1 1 [65] ⟨0, 0, [[]]⟩ =
      .ok ⟨(k : Int) + 2, (k : Int) + 2, [1 :: List.replicate (k + 1) 0]⟩ := by
    rw [writeChars, hg]
    show (match stampGlyph ⟨65, [[1]], 1, ⟨1, 1, -((k : Int) + 1), 0⟩⟩ 1 0
        (if (0 : Int) < -(-((k : Int) + 1)) then -(-((k : Int) + 1)) else 0)
        (growRows [[]] 0
          (if (0 : Int) < -(-((k : Int) + 1)) then max 1 1 + -(-((k : Int) + 1)) else max 1 1)) with
      | .error e => (.error e : Except JsErr CompState)
      | .ok rows2 =>
        writeChars (fontNegXK k) 0 1 1 []
          ⟨0 + (if (0 : Int) < -(-((k : Int) + 1)) then max 1 1 + -(-((k : Int) + 1)) else max 1 1),
           (if (0 : Int) < -(-((k : Int) + 1)) then -(-((k : Int) + 1)) else 0) + 1 + 0,
           rows2⟩) = _
    rw [if_pos hcond, if_pos hcond, hneg]
    rw [show (max (1 : Int) 1) = 1 from rfl]
    rw [show growRows [[]] 0 (1 + ((k : Int) + 1)) = [growRow [] 0 (1 + ((k : Int) + 1))] from rfl]
    rw [growRow_append [] 0 (1 + ((k : Int) + 1)) (by simp), htn]
    rw [List.nil_append, hstamp]
    show Except.ok (⟨0 + (1 + ((k : Int) + 1)), ((k : Int) + 1) + 1 + 0,
      [1 :: List.replicate (k + 1) 0]⟩ : CompState) = _
    have h1 : (0 : Int) + (1 + ((k : Int) + 1)) = (k : Int) + 2 := by ring
    have h2 : ((k : Int) + 1) + 1 + 0 = (k : Int) + 2 := by ring
    rw [h1, h2]
  have hbody : writeTextBody (fontNegXK k) [65] ⟨none, none⟩ none =
      .ok ⟨(k : Int) + 2, 1, [1 :: List.replicate (k + 1) 0]⟩ := by
    show (match writeChars (fontNegXK k) 0 1 1 [65] ⟨0, 0, [[]]⟩ with
      | .error e => (.error e : Except JsErr JsBitmap)
      | .ok st => .ok ⟨st.width, 1, st.rows⟩) = _
    rw [hchars]
  show writeTextFuel (fontNegXK k) [65] 0 ⟨none, none⟩ none = _
  rw [writeTextFuel, hbody]
  rfl

/-- C7 (counterexample): `fontTall` has a glyph, and the replacement
chain resolves code 66 to it, yet `writeText` does not return a bitmap —
it dies with a `TypeError` stamping the glyph's out-of-bounds rows. -/
theorem c7_counterexample :
    fontTall.glyphs ≠ [] ∧
    (resolveGlyph fontTall 66).isSome ∧
    writeText fontTall [66] ⟨none, none⟩ none = .error .typeError := by
  exact ⟨by decide, rfl, rfl⟩

end BDF
